import Mathlib

/-!
Verification of the line-oriented text log encoder (package zap: bytes.go,
text_encoder.go, ansi_encoder.go).

Byte buffers and Go strings are shallowly embedded as `List Nat`, each element
standing for one byte.  Pool acquisition is modelled as a fresh allocation
(spec section 9: a fresh allocation on every acquire must behave identically to
pool reuse); `truncate` resets only the byte buffer, exactly as in the source.
-/

namespace Zap

/-- Byte sequence of an ASCII string literal (each char is one byte here;
every literal used below is pure ASCII). -/
def ascii (s : String) : List Nat :=
  s.toList.map Char.toNat

/-! ## bytes.go -/

/-- Translation of `const hextable = "0123456789ABCDEF"` (bytes.go line 3). -/
def hextable : List Nat := ascii "0123456789ABCDEF"

/-- Indexing into `hextable`; in the source every index is `v>>4` or `v&0x0F`
of a byte and hence in range, so the default is never used. -/
def hexDigit (i : Nat) : Nat := hextable.getD i 0

/-- Translation of `hexEncode` (bytes.go lines 5-12): append "0x", then for
each source byte the high nibble digit and the low nibble digit. -/
def hexEncode (dst : List Nat) (src : List Nat) : List Nat :=
  src.foldl (fun d v => (d ++ [hexDigit (v / 16)]) ++ [hexDigit (v % 16)])
    (dst ++ ascii "0x")

/-- Two hex digits per source byte, in source order; the per-byte body that
`hexEncode` writes after the "0x" tag. -/
def hexBody : List Nat → List Nat
  | [] => []
  | v :: rest => hexDigit (v / 16) :: hexDigit (v % 16) :: hexBody rest

/-- Modelled from the spec: decoding of the two-digit-per-byte uppercase hex
body, used to state the round-trip property (no decoder exists in the source). -/
def hexDecodePairs : List Nat → Option (List Nat)
  | [] => some []
  | hi :: lo :: rest =>
    match hextable.findIdx? (fun c => c == hi),
          hextable.findIdx? (fun c => c == lo),
          hexDecodePairs rest with
    | some h, some l, some tl => some ((h * 16 + l) :: tl)
    | _, _, _ => none
  | [_] => none

/-- Modelled from the spec: decoding of a full "0x"-prefixed uppercase-hex
rendering (48 and 120 are the bytes of "0x"). -/
def hexDecode (bs : List Nat) : Option (List Nat) :=
  match bs with
  | 48 :: 120 :: rest => hexDecodePairs rest
  | _ => none

/-! ## Levels, times, errors and sinks (collaborators of the encoder) -/

/-- Modelled from the spec: the severity levels.  The six named level
constants (`DebugLevel` .. `FatalLevel`) are declared outside the provided
sources; the spec describes them as a small closed set plus an "unknown"
fallback rendered as its raw numeric value, which `otherL` carries. -/
inductive Level
  | debugL
  | infoL
  | warnL
  | errorL
  | panicL
  | fatalL
  | otherL (n : Int)
deriving DecidableEq

/-- Decimal rendering of a signed integer, as `strconv.AppendInt(_, v, 10)`
produces it (minus sign for negatives, no padding). -/
def decInt (n : Int) : List Nat := ascii (toString n)

/-- Decimal rendering of an unsigned integer, as `strconv.AppendUint(_, v, 10)`
produces it. -/
def decNat (n : Nat) : List Nat := ascii (toString n)

/-- Modelled from the spec: `time.Time` is external to the repository and the
encoder uses it only through `AppendFormat(buf, layout)`, so a time value is
embedded as the function taking a layout to the formatted bytes. -/
def Time := List Nat → List Nat

/-- Translation of `time.RFC3339`, the default layout installed by
`NewTextEncoder`. -/
def rfc3339 : List Nat := ascii "2006-01-02T15:04:05Z07:00"

/-- The time value 2021-01-01T00:00:00Z (UTC), embedded through its
`AppendFormat` behaviour: under the RFC3339 layout (the only layout it is used
with in this development) Go renders exactly this string. -/
def t2021 : Time := fun _ => ascii "2021-01-01T00:00:00Z"

/-- Errors surfaced by the encoder.  `nilSink` models `errNilSink` (declared
outside the provided sources, described by the spec as the "nil sink" error);
`incompleteWrite n expected` models the formatted "incomplete write: only
wrote n of expected bytes" error; `sinkErr` stands for any error value a sink
or a marshaler may produce. -/
inductive GoErr
  | nilSink
  | incompleteWrite (n : Nat) (expected : Nat)
  | sinkErr (tag : Nat)
deriving DecidableEq

/-- A sink write function: bytes in, (count written, error) out, the single
operation the encoder needs from `io.Writer`. -/
def WriteFn := List Nat → Nat × Option GoErr

/-- An `io.Writer` argument, which may be nil. -/
inductive Sink
  | nilSink
  | writer (w : WriteFn)

/-- Result of a `WriteEntry` call: the caller's encoder state after the call,
the byte sequences handed to the sink (in order), and the returned error. -/
structure WriteResult (σ : Type) where
  enc : σ
  writes : List (List Nat)
  err : Option GoErr

/-- A sink that accepts every write in full, used to instantiate theorems. -/
def demoSink : WriteFn := fun bs => (bs.length, none)

/-! ## text_encoder.go: the textEncoder structure and its field mutators -/

/-- Translation of the `textEncoder` struct (text_encoder.go lines 38-42). -/
structure TextEncoder where
  bytes : List Nat
  timeFmt : List Nat
  noName : Bool
deriving DecidableEq

/-- A freshly allocated pool instance (`textPool.New`): empty buffer,
zero-valued settings.  Pool acquisition is modelled as fresh allocation,
which spec section 9 requires to behave identically to reuse. -/
def freshTextEncoder : TextEncoder :=
  { bytes := [], timeFmt := [], noName := false }

/-- Translation of `truncate` (lines 178-180): resets the buffer only. -/
def truncate (enc : TextEncoder) : TextEncoder :=
  { enc with bytes := [] }

/-- Translation of the `TextOption` interface: an option mutates the encoder. -/
def TextOption := TextEncoder → TextEncoder

/-- Translation of `TextTimeFormat` (lines 246-250). -/
def TextTimeFormat (layout : List Nat) : TextOption :=
  fun enc => { enc with timeFmt := layout }

/-- Translation of `TextNoTime` (lines 253-255). -/
def TextNoTime : TextOption := TextTimeFormat []

/-- Translation of `TextNoName` (lines 258-262). -/
def TextNoName : TextOption :=
  fun enc => { enc with noName := true }

/-- Translation of `NewTextEncoder` (lines 47-55): acquire, truncate, install
the RFC3339 default, then apply the options in order. -/
def NewTextEncoder (options : List TextOption) : TextEncoder :=
  options.foldl (fun e opt => opt e)
    { truncate freshTextEncoder with timeFmt := rfc3339 }

/-- Translation of `addKey` (lines 182-189): a single space if the buffer is
nonempty and its last byte is not 123 (the opening brace), then the key bytes,
then 61 (the equals sign). -/
def addKey (enc : TextEncoder) (key : List Nat) : TextEncoder :=
  let bs :=
    if 0 < enc.bytes.length ∧ enc.bytes.getLast? ≠ some 123 then
      enc.bytes ++ [32]
    else enc.bytes
  { enc with bytes := (bs ++ key) ++ [61] }

/-- The separator `addKey` inserts, as a function of the prior buffer: one
space when the buffer is nonempty and does not end in an opening brace. -/
def sepFor (bs : List Nat) : List Nat :=
  if bs ≠ [] ∧ bs.getLast? ≠ some 123 then [32] else []

/-- Translation of `AddString` (lines 61-64): key, then the value bytes
verbatim. -/
def AddString (enc : TextEncoder) (key val : List Nat) : TextEncoder :=
  { addKey enc key with bytes := (addKey enc key).bytes ++ val }

/-- Translation of `AddBool` (lines 66-73). -/
def AddBool (enc : TextEncoder) (key : List Nat) (val : Bool) : TextEncoder :=
  if val then
    { addKey enc key with bytes := (addKey enc key).bytes ++ ascii "true" }
  else
    { addKey enc key with bytes := (addKey enc key).bytes ++ ascii "false" }

/-- Translation of `AddByte` (lines 75-80): "0x", high nibble, low nibble. -/
def AddByte (enc : TextEncoder) (key : List Nat) (val : Nat) : TextEncoder :=
  { addKey enc key with
    bytes :=
      (((addKey enc key).bytes ++ ascii "0x") ++ [hexDigit (val / 16)])
        ++ [hexDigit (val % 16)] }

/-- Translation of `AddBytes` (lines 82-85). -/
def AddBytes (enc : TextEncoder) (key : List Nat) (val : List Nat) : TextEncoder :=
  { addKey enc key with bytes := hexEncode (addKey enc key).bytes val }

/-- Translation of `AddInt64` (lines 91-94). -/
def AddInt64 (enc : TextEncoder) (key : List Nat) (val : Int) : TextEncoder :=
  { addKey enc key with bytes := (addKey enc key).bytes ++ decInt val }

/-- Translation of `AddInt` (lines 87-89): widen to 64 bits and delegate;
the widening is the identity on the mathematical integer. -/
def AddInt (enc : TextEncoder) (key : List Nat) (val : Int) : TextEncoder :=
  AddInt64 enc key val

/-- Translation of `AddUint64` (lines 100-103). -/
def AddUint64 (enc : TextEncoder) (key : List Nat) (val : Nat) : TextEncoder :=
  { addKey enc key with bytes := (addKey enc key).bytes ++ decNat val }

/-- Translation of `AddUint` (lines 96-98). -/
def AddUint (enc : TextEncoder) (key : List Nat) (val : Nat) : TextEncoder :=
  AddUint64 enc key val

/-- A floating point argument, classified as `addFloat` classifies it.  The
binary-to-shortest-decimal conversion `strconv.AppendFloat(_, v, 102, -1, bits)`
performs for finite values is IEEE-754 behaviour outside this embedding, so a
finite value carries the byte sequence that conversion renders. -/
inductive FloatVal
  | nan
  | posInf
  | negInf
  | finite (rendered : List Nat)
deriving DecidableEq

/-- The value text `addFloat` appends for each class of float argument. -/
def floatBytes : FloatVal → List Nat
  | FloatVal.nan => ascii "NaN"
  | FloatVal.posInf => ascii "+Inf"
  | FloatVal.negInf => ascii "-Inf"
  | FloatVal.finite rendered => rendered

/-- Translation of `addFloat` (lines 113-125): key, then "NaN" / "+Inf" /
"-Inf" for the special classes, else the converted decimal bytes. -/
def addFloat (enc : TextEncoder) (key : List Nat) (val : FloatVal) : TextEncoder :=
  { addKey enc key with bytes := (addKey enc key).bytes ++ floatBytes val }

/-- Translation of `AddFloat32` (lines 105-107); the 32-bit width only affects
the conversion abstracted inside `FloatVal.finite`. -/
def AddFloat32 (enc : TextEncoder) (key : List Nat) (val : FloatVal) : TextEncoder :=
  addFloat enc key val

/-- Translation of `AddFloat64` (lines 109-111). -/
def AddFloat64 (enc : TextEncoder) (key : List Nat) (val : FloatVal) : TextEncoder :=
  addFloat enc key val

/-- Translation of the `LogMarshaler` collaborator: `MarshalLog` receives the
encoder and returns it (possibly mutated through the Add operations) together
with an error. -/
def LogMarshaler := TextEncoder → TextEncoder × Option GoErr

/-- The encoder state `AddMarshaler` hands to the marshalable object: after
the key and the opening brace (byte 123) have been appended
(text_encoder.go lines 128-129). -/
def afterOpen (enc : TextEncoder) (key : List Nat) : TextEncoder :=
  { addKey enc key with bytes := (addKey enc key).bytes ++ [123] }

/-- Translation of `AddMarshaler` (lines 127-133): key, opening brace, the
object's self-serialization against this same encoder, closing brace (byte
125, appended whether or not the object reported an error), and the object's
error returned unchanged. -/
def AddMarshaler (enc : TextEncoder) (key : List Nat) (obj : LogMarshaler) :
    TextEncoder × Option GoErr :=
  ({ (obj (afterOpen enc key)).1 with
      bytes := (obj (afterOpen enc key)).1.bytes ++ [125] },
   (obj (afterOpen enc key)).2)

/-- A marshalable object used to instantiate theorems: it adds the single
field a=1 and reports an error. -/
def demoMarshaler : LogMarshaler :=
  fun e => (AddInt64 e (ascii "a") 1, some (GoErr.sinkErr 7))

/-- Translation of `Clone` (lines 140-146): acquire a pooled instance, reset
its buffer, append the source's buffer, copy the source's time format.  The
`noName` flag is not copied by the source, so the clone keeps the fresh
instance's value. -/
def Clone (enc : TextEncoder) : TextEncoder :=
  { truncate freshTextEncoder with
      bytes := (truncate freshTextEncoder).bytes ++ enc.bytes,
      timeFmt := enc.timeFmt }

/-! ## text_encoder.go: entry assembly and the write protocol -/

/-- Byte 91 is the opening square bracket, 93 the closing one. -/
def addLevel (final : List Nat) (lvl : Level) : List Nat :=
  (match lvl with
   | Level.debugL => (final ++ [91]) ++ [68]
   | Level.infoL => (final ++ [91]) ++ [73]
   | Level.warnL => (final ++ [91]) ++ [87]
   | Level.errorL => (final ++ [91]) ++ [69]
   | Level.panicL => (final ++ [91]) ++ [80]
   | Level.fatalL => (final ++ [91]) ++ [70]
   | Level.otherL n => (final ++ [91]) ++ decInt n) ++ [93]

/-- Translation of `addTime` (lines 212-218): nothing when the layout is
empty, else a space then the formatted time. -/
def addTime (enc : TextEncoder) (final : List Nat) (t : Time) : List Nat :=
  if enc.timeFmt = [] then final
  else (final ++ [32]) ++ t enc.timeFmt

/-- Translation of `addName` (lines 220-226). -/
def addName (enc : TextEncoder) (final : List Nat) (name : List Nat) : List Nat :=
  if name = [] ∨ enc.noName = true then final
  else (final ++ [32]) ++ name

/-- Translation of `addMessage` (lines 228-231). -/
def addMessage (final : List Nat) (msg : List Nat) : List Nat :=
  (final ++ [32]) ++ msg

/-- Translation of the field-suffix step of `WriteEntry` (lines 160-163):
when the accumulator is nonempty, a space then the accumulated bytes. -/
def addFields (enc : TextEncoder) (final : List Nat) : List Nat :=
  if 0 < enc.bytes.length then (final ++ [32]) ++ enc.bytes else final

/-- The level/time/name/message/fields body `WriteEntry` assembles into the
temporary render buffer `final` (lines 155-163), before the newline. -/
def entryBody (enc : TextEncoder) (final : List Nat) (name msg : List Nat)
    (lvl : Level) (t : Time) : List Nat :=
  addFields enc (addMessage (addName enc (addTime enc (addLevel final lvl) t) name) msg)

/-- The complete line `WriteEntry` assembles: body then newline (byte 10).
The temporary render buffer starts empty (pool get + truncate, lines 153-154). -/
def textAssemble (enc : TextEncoder) (name msg : List Nat) (lvl : Level)
    (t : Time) : List Nat :=
  entryBody enc [] name msg lvl t ++ [10]

/-- Translation of `textEncoder.WriteEntry` (lines 148-176): nil-sink check,
assembly into a temporary buffer, one write, error propagation, and the
incomplete-write check `n != expectedBytes`. -/
def WriteEntry (enc : TextEncoder) (sink : Sink) (name msg : List Nat)
    (lvl : Level) (t : Time) : WriteResult TextEncoder :=
  match sink with
  | Sink.nilSink => ⟨enc, [], some GoErr.nilSink⟩
  | Sink.writer w =>
    match w (textAssemble enc name msg lvl t) with
    | (_, some e) => ⟨enc, [textAssemble enc name msg lvl t], some e⟩
    | (n, none) =>
      if n ≠ (textAssemble enc name msg lvl t).length then
        ⟨enc, [textAssemble enc name msg lvl t],
          some (GoErr.incompleteWrite n (textAssemble enc name msg lvl t).length)⟩
      else ⟨enc, [textAssemble enc name msg lvl t], none⟩

/-! ## ansi_encoder.go -/

/-- Value of `resetColor = ansi.ColorCode("reset")` from the external
mgutz/ansi package: the escape byte 27 then "[0m", as the spec scenario pins
it. -/
def resetColor : List Nat := 27 :: ascii "[0m"

/-- Translation of the `ansiEncoder` struct (ansi_encoder.go lines 33-42):
an embedded textEncoder plus six per-level color codes. -/
structure AnsiEncoder where
  text : TextEncoder
  debugColor : List Nat
  infoColor : List Nat
  warnColor : List Nat
  errorColor : List Nat
  panicColor : List Nat
  fatalColor : List Nat
deriving DecidableEq

/-- Translation of `addLevelColor` (lines 126-142): the configured color for
the six named levels, nothing for the default case. -/
def addLevelColor (enc : AnsiEncoder) (final : List Nat) (lvl : Level) : List Nat :=
  match lvl with
  | Level.debugL => final ++ enc.debugColor
  | Level.infoL => final ++ enc.infoColor
  | Level.warnL => final ++ enc.warnColor
  | Level.errorL => final ++ enc.errorColor
  | Level.panicL => final ++ enc.panicColor
  | Level.fatalL => final ++ enc.fatalColor
  | Level.otherL _ => final

/-- Translation of `clearLevelColor` (lines 144-150): the reset code for the
six named levels, nothing for the default case. -/
def clearLevelColor (final : List Nat) (lvl : Level) : List Nat :=
  match lvl with
  | Level.otherL _ => final
  | _ => final ++ resetColor

/-- The color code `addLevelColor` appends, as a function of the level. -/
def colorOf (enc : AnsiEncoder) (lvl : Level) : List Nat :=
  match lvl with
  | Level.debugL => enc.debugColor
  | Level.infoL => enc.infoColor
  | Level.warnL => enc.warnColor
  | Level.errorL => enc.errorColor
  | Level.panicL => enc.panicColor
  | Level.fatalL => enc.fatalColor
  | Level.otherL _ => []

/-- Whether a level is one of the six recognized (switch-matched) levels. -/
def recognized : Level → Bool
  | Level.otherL _ => false
  | _ => true

/-- The complete line the ANSI `WriteEntry` assembles (lines 98-112): level
color, then the same level/time/name/message/fields body the plain encoder
builds (through the embedded textEncoder), then the reset code, then the
newline. -/
def ansiAssemble (enc : AnsiEncoder) (name msg : List Nat) (lvl : Level)
    (t : Time) : List Nat :=
  clearLevelColor
    (entryBody enc.text (addLevelColor enc [] lvl) name msg lvl t) lvl ++ [10]

/-- Translation of `ansiEncoder.WriteEntry` (lines 93-124): identical write
protocol to the plain encoder, on the color-decorated line. -/
def AnsiWriteEntry (enc : AnsiEncoder) (sink : Sink) (name msg : List Nat)
    (lvl : Level) (t : Time) : WriteResult AnsiEncoder :=
  match sink with
  | Sink.nilSink => ⟨enc, [], some GoErr.nilSink⟩
  | Sink.writer w =>
    match w (ansiAssemble enc name msg lvl t) with
    | (_, some e) => ⟨enc, [ansiAssemble enc name msg lvl t], some e⟩
    | (n, none) =>
      if n ≠ (ansiAssemble enc name msg lvl t).length then
        ⟨enc, [ansiAssemble enc name msg lvl t],
          some (GoErr.incompleteWrite n (ansiAssemble enc name msg lvl t).length)⟩
      else ⟨enc, [ansiAssemble enc name msg lvl t], none⟩

/-- The ANSI encoder of the spec scenario: info color ESC "[32m", one
accumulated field count=3, default RFC3339 timestamps.  The other five colors
are irrelevant to the scenario and left empty rather than modelling the
external ansi package's default values. -/
def ansiScenario : AnsiEncoder :=
  { text := AddInt64 (NewTextEncoder []) (ascii "count") 3,
    debugColor := [],
    infoColor := 27 :: ascii "[32m",
    warnColor := [],
    errorColor := [],
    panicColor := [],
    fatalColor := [] }

/-- Contribution of one byte to the brace balance: +1 for an opening brace
(123), -1 for a closing brace (125), 0 otherwise. -/
def braceDelta (b : Nat) : Int :=
  if b = 123 then 1 else if b = 125 then -1 else 0

/-- Brace balance of a byte sequence: opening braces minus closing braces. -/
def braceBal (bs : List Nat) : Int :=
  (bs.map braceDelta).sum

/-! ## Helper lemmas -/

/-- Unfolding of `addKey` through `sepFor`. -/
theorem addKey_bytes (enc : TextEncoder) (key : List Nat) :
    (addKey enc key).bytes = enc.bytes ++ sepFor enc.bytes ++ key ++ [61] := by
  simp only [addKey, sepFor]
  by_cases h1 : enc.bytes = [] <;> by_cases h2 : enc.bytes.getLast? = some 123 <;>
    simp [h1, h2, List.length_pos, List.append_assoc]

/-- Unfolding of `AddString` through `sepFor`. -/
theorem addString_bytes (enc : TextEncoder) (key val : List Nat) :
    (AddString enc key val).bytes
      = enc.bytes ++ sepFor enc.bytes ++ key ++ [61] ++ val := by
  simp [AddString, addKey_bytes, List.append_assoc]

/-- A buffer ending in an opening brace suppresses the separator. -/
theorem sepFor_snoc_brace (x : List Nat) : sepFor (x ++ [123]) = [] := by
  simp [sepFor, List.getLast?_concat]

/-- Closed form of `hexEncode`: tag then two digits per byte. -/
theorem hexEncode_eq (dst src : List Nat) :
    hexEncode dst src = dst ++ ascii "0x" ++ hexBody src := by
  suffices h : ∀ (s acc : List Nat),
      List.foldl (fun d v => (d ++ [hexDigit (v / 16)]) ++ [hexDigit (v % 16)]) acc s
        = acc ++ hexBody s by
    simpa [hexEncode, List.append_assoc] using h src (dst ++ ascii "0x")
  intro s
  induction s with
  | nil => intro acc; simp [hexBody]
  | cons v rest ih =>
    intro acc
    rw [List.foldl_cons, ih]
    simp [hexBody, List.append_assoc]

/-- Decoding recovers the index of each of the sixteen hex digits. -/
theorem hexDigit_inv : ∀ d, d < 16 →
    hextable.findIdx? (fun c => c == hexDigit d) = some d := by decide

/-- Each of the sixteen hex digits is drawn from `hextable`. -/
theorem hexDigit_mem : ∀ d, d < 16 → hexDigit d ∈ hextable := by decide

/-- Round trip of the digit body for byte-valued sources. -/
theorem hexDecodePairs_hexBody (src : List Nat) (h : ∀ v ∈ src, v < 256) :
    hexDecodePairs (hexBody src) = some src := by
  induction src with
  | nil => rfl
  | cons v rest ih =>
    have hv : v < 256 := h v (by simp)
    have h1 : v / 16 < 16 := by omega
    have h2 : v % 16 < 16 := by omega
    have hrest : ∀ x ∈ rest, x < 256 := fun x hx => h x (by simp [hx])
    simp [hexBody, hexDecodePairs, hexDigit_inv _ h1, hexDigit_inv _ h2, ih hrest]
    omega

/-- `addLevel` only appends. -/
theorem addLevel_append (pre b : List Nat) (lvl : Level) :
    addLevel (pre ++ b) lvl = pre ++ addLevel b lvl := by
  cases lvl <;> simp [addLevel, List.append_assoc]

/-- `addTime` only appends. -/
theorem addTime_append (enc : TextEncoder) (pre b : List Nat) (t : Time) :
    addTime enc (pre ++ b) t = pre ++ addTime enc b t := by
  by_cases h : enc.timeFmt = [] <;> simp [addTime, h, List.append_assoc]

/-- `addName` only appends. -/
theorem addName_append (enc : TextEncoder) (pre b name : List Nat) :
    addName enc (pre ++ b) name = pre ++ addName enc b name := by
  by_cases h : name = [] ∨ enc.noName = true <;> simp [addName, h, List.append_assoc]

/-- `addMessage` only appends. -/
theorem addMessage_append (pre b msg : List Nat) :
    addMessage (pre ++ b) msg = pre ++ addMessage b msg := by
  simp [addMessage, List.append_assoc]

/-- The field-suffix step only appends. -/
theorem addFields_append (enc : TextEncoder) (pre b : List Nat) :
    addFields enc (pre ++ b) = pre ++ addFields enc b := by
  by_cases h : 0 < enc.bytes.length <;> simp [addFields, h, List.append_assoc]

/-- The assembled body only appends to the render buffer it is given. -/
theorem entryBody_append (enc : TextEncoder) (pre b n m : List Nat) (l : Level)
    (t : Time) :
    entryBody enc (pre ++ b) n m l t = pre ++ entryBody enc b n m l t := by
  simp [entryBody, addLevel_append, addTime_append, addName_append,
    addMessage_append, addFields_append]

/-- The assembled body factors through the empty render buffer. -/
theorem entryBody_pre (enc : TextEncoder) (pre n m : List Nat) (l : Level)
    (t : Time) :
    entryBody enc pre n m l t = pre ++ entryBody enc [] n m l t := by
  simpa using entryBody_append enc pre [] n m l t

/-- Closed form of `addLevelColor`. -/
theorem addLevelColor_eq (enc : AnsiEncoder) (final : List Nat) (lvl : Level) :
    addLevelColor enc final lvl = final ++ colorOf enc lvl := by
  cases lvl <;> simp [addLevelColor, colorOf]

/-- Closed form of `clearLevelColor`. -/
theorem clearLevelColor_eq (final : List Nat) (lvl : Level) :
    clearLevelColor final lvl
      = final ++ (if recognized lvl then resetColor else []) := by
  cases lvl <;> simp [clearLevelColor, recognized]

/-- `WriteEntry` hands back the caller's encoder untouched. -/
theorem writeEntry_enc (enc : TextEncoder) (s : Sink) (n m : List Nat)
    (l : Level) (t : Time) : (WriteEntry enc s n m l t).enc = enc := by
  cases s with
  | nilSink => rfl
  | writer w =>
    rcases hw : w (textAssemble enc n m l t) with ⟨k, e⟩
    cases e
    · simp only [WriteEntry, hw]
      split <;> rfl
    · simp [WriteEntry, hw]

/-- `WriteEntry` on a non-nil sink performs exactly one write, of the
assembled line. -/
theorem writeEntry_writes (enc : TextEncoder) (w : WriteFn) (n m : List Nat)
    (l : Level) (t : Time) :
    (WriteEntry enc (Sink.writer w) n m l t).writes
      = [textAssemble enc n m l t] := by
  rcases hw : w (textAssemble enc n m l t) with ⟨k, e⟩
  cases e
  · simp only [WriteEntry, hw]
    split <;> rfl
  · simp [WriteEntry, hw]

/-- ANSI `WriteEntry` hands back the caller's encoder untouched. -/
theorem ansiWriteEntry_enc (enc : AnsiEncoder) (s : Sink) (n m : List Nat)
    (l : Level) (t : Time) : (AnsiWriteEntry enc s n m l t).enc = enc := by
  cases s with
  | nilSink => rfl
  | writer w =>
    rcases hw : w (ansiAssemble enc n m l t) with ⟨k, e⟩
    cases e
    · simp only [AnsiWriteEntry, hw]
      split <;> rfl
    · simp [AnsiWriteEntry, hw]

/-- ANSI `WriteEntry` on a non-nil sink performs exactly one write, of the
decorated line. -/
theorem ansiWriteEntry_writes (enc : AnsiEncoder) (w : WriteFn) (n m : List Nat)
    (l : Level) (t : Time) :
    (AnsiWriteEntry enc (Sink.writer w) n m l t).writes
      = [ansiAssemble enc n m l t] := by
  rcases hw : w (ansiAssemble enc n m l t) with ⟨k, e⟩
  cases e
  · simp only [AnsiWriteEntry, hw]
    split <;> rfl
  · simp [AnsiWriteEntry, hw]

/-! ## Claims -/

/-- C1: with the default text encoder (RFC3339 timestamps), WriteEntry at
level Info, name "svc", message "started", timestamp 2021-01-01T00:00:00Z and
an empty field accumulator writes exactly the line
"[I] 2021-01-01T00:00:00Z svc started" plus newline to the sink; with the
single accumulated field count=3 it writes the same line with " count=3"
before the newline. -/
theorem claim_C1 (w : WriteFn) :
    (WriteEntry (NewTextEncoder []) (Sink.writer w) (ascii "svc")
        (ascii "started") Level.infoL t2021).writes
      = [ascii "[I] 2021-01-01T00:00:00Z svc started\n"]
  ∧ (WriteEntry (AddInt64 (NewTextEncoder []) (ascii "count") 3) (Sink.writer w)
        (ascii "svc") (ascii "started") Level.infoL t2021).writes
      = [ascii "[I] 2021-01-01T00:00:00Z svc started count=3\n"] := by
  constructor <;> rw [writeEntry_writes] <;> decide

/-- C2: every Add operation on the text encoder appends exactly one separator
space before key= precisely when the buffer is nonempty and its last byte is
not an opening brace (sepFor is that separator by definition, restated in the
iff-shaped conjunct); the first field gets no leading space, and the buffer
never ends in an inserted separator (the last byte always comes from key= and
the value, as the final conjunct states). -/
theorem claim_C2 (enc : TextEncoder) (k : List Nat) :
    (∀ v, (AddString enc k v).bytes
        = enc.bytes ++ sepFor enc.bytes ++ k ++ [61] ++ v)
  ∧ (∀ v, (AddBool enc k v).bytes
        = enc.bytes ++ sepFor enc.bytes ++ k ++ [61]
            ++ (if v then ascii "true" else ascii "false"))
  ∧ (∀ v, (AddByte enc k v).bytes
        = enc.bytes ++ sepFor enc.bytes ++ k ++ [61]
            ++ (ascii "0x" ++ [hexDigit (v / 16), hexDigit (v % 16)]))
  ∧ (∀ v, (AddBytes enc k v).bytes
        = enc.bytes ++ sepFor enc.bytes ++ k ++ [61] ++ (ascii "0x" ++ hexBody v))
  ∧ (∀ v, (AddInt enc k v).bytes
        = enc.bytes ++ sepFor enc.bytes ++ k ++ [61] ++ decInt v)
  ∧ (∀ v, (AddInt64 enc k v).bytes
        = enc.bytes ++ sepFor enc.bytes ++ k ++ [61] ++ decInt v)
  ∧ (∀ v, (AddUint enc k v).bytes
        = enc.bytes ++ sepFor enc.bytes ++ k ++ [61] ++ decNat v)
  ∧ (∀ v, (AddUint64 enc k v).bytes
        = enc.bytes ++ sepFor enc.bytes ++ k ++ [61] ++ decNat v)
  ∧ (∀ v, (AddFloat32 enc k v).bytes
        = enc.bytes ++ sepFor enc.bytes ++ k ++ [61] ++ floatBytes v)
  ∧ (∀ v, (AddFloat64 enc k v).bytes
        = enc.bytes ++ sepFor enc.bytes ++ k ++ [61] ++ floatBytes v)
  ∧ sepFor enc.bytes
      = (if enc.bytes ≠ [] ∧ enc.bytes.getLast? ≠ some 123 then [32] else [])
  ∧ (enc.bytes = [] → sepFor enc.bytes = [])
  ∧ (∀ v, (AddString enc k v).bytes.getLast? = (k ++ [61] ++ v).getLast?) := by
  refine ⟨fun v => addString_bytes enc k v, ?_, ?_, ?_, ?_, ?_, ?_, ?_, ?_, ?_,
    rfl, ?_, ?_⟩
  · intro v
    cases v <;> simp [AddBool, addKey_bytes, List.append_assoc]
  · intro v
    simp [AddByte, addKey_bytes, List.append_assoc]
  · intro v
    simp [AddBytes, hexEncode_eq, addKey_bytes, List.append_assoc]
  · intro v
    simp [AddInt, AddInt64, addKey_bytes, List.append_assoc]
  · intro v
    simp [AddInt64, addKey_bytes, List.append_assoc]
  · intro v
    simp [AddUint, AddUint64, addKey_bytes, List.append_assoc]
  · intro v
    simp [AddUint64, addKey_bytes, List.append_assoc]
  · intro v
    simp [AddFloat32, addFloat, addKey_bytes, List.append_assoc]
  · intro v
    simp [AddFloat64, addFloat, addKey_bytes, List.append_assoc]
  · intro h
    simp [sepFor, h]
  · intro v
    rw [addString_bytes,
      show enc.bytes ++ sepFor enc.bytes ++ k ++ [61] ++ v
          = (enc.bytes ++ sepFor enc.bytes) ++ (k ++ [61] ++ v) from by
        simp [List.append_assoc]]
    exact List.getLast?_append_of_ne_nil _ (by simp)

/-- C2 witness: on a freshly acquired encoder the buffer is empty and the
first field gets no leading separator. -/
theorem claim_C2_witness :
    (NewTextEncoder []).bytes = [] ∧ sepFor (NewTextEncoder []).bytes = [] :=
  ⟨rfl,
   (claim_C2 (NewTextEncoder [])
      (ascii "k")).2.2.2.2.2.2.2.2.2.2.2.1 rfl⟩

/-- C3 counterexample: the claim asserts the clone's name-suppression setting
equals the source's, but `Clone` copies only the buffer and the time format;
cloning an encoder built with the TextNoName option yields a clone whose
noName flag differs from the source's. -/
theorem claim_C3_counterexample :
    (Clone (NewTextEncoder [TextNoName])).noName
      ≠ (NewTextEncoder [TextNoName]).noName := by decide

/-- C3 (amended): Clone returns a new instance whose buffer equals the
source's buffer and whose time format equals the source's; the
name-suppression flag is NOT copied — the clone keeps the freshly acquired
instance's value (false for a fresh allocation).  The two instances are
independent: in the spec's isolation scenario the source still shows only
a=1 while the clone shows a=1 b=2. -/
theorem claim_C3 (enc : TextEncoder) :
    (Clone enc).bytes = enc.bytes
  ∧ (Clone enc).timeFmt = enc.timeFmt
  ∧ (Clone enc).noName = false
  ∧ (AddInt64 (NewTextEncoder []) (ascii "a") 1).bytes = ascii "a=1"
  ∧ (AddInt64 (Clone (AddInt64 (NewTextEncoder []) (ascii "a") 1))
        (ascii "b") 2).bytes = ascii "a=1 b=2" := by
  refine ⟨?_, rfl, rfl, by decide, by decide⟩
  simp [Clone, truncate, freshTextEncoder]

/-- C5: for every level the ANSI encoder's assembled line is the configured
color code for that level (nothing for unrecognized levels), then the plain
encoder's level/time/name/message/fields body, then the reset code exactly
when the level is recognized, then a newline; the Info scenario with field
count=3, info color ESC[32m and reset ESC[0m yields exactly the claimed
bytes. -/
theorem claim_C5 (aenc : AnsiEncoder) (n m : List Nat) (l : Level) (t : Time) :
    ansiAssemble aenc n m l t
      = colorOf aenc l ++ entryBody aenc.text [] n m l t
          ++ (if recognized l then resetColor else []) ++ [10]
  ∧ textAssemble aenc.text n m l t = entryBody aenc.text [] n m l t ++ [10]
  ∧ ansiAssemble ansiScenario (ascii "svc") (ascii "started") Level.infoL t2021
      = ascii "\x1b[32m[I] 2021-01-01T00:00:00Z svc started count=3\x1b[0m\n" := by
  refine ⟨?_, rfl, by decide⟩
  unfold ansiAssemble
  rw [addLevelColor_eq, clearLevelColor_eq,
    show ([] : List Nat) ++ colorOf aenc l = colorOf aenc l from by simp,
    entryBody_pre]

/-- C7: hexEncode appends "0x" then exactly two hex digits per source byte in
source order, each digit drawn from the uppercase table, leaving the existing
destination contents intact as a prefix; decoding the appended rendering
reproduces the original byte sequence exactly, for sources of any length
(including empty). -/
theorem claim_C7 (dst src : List Nat) (h : ∀ v ∈ src, v < 256) :
    hexEncode dst src = dst ++ ascii "0x" ++ hexBody src
  ∧ (∀ v ∈ src, hexDigit (v / 16) ∈ hextable ∧ hexDigit (v % 16) ∈ hextable)
  ∧ hexDecode (List.drop dst.length (hexEncode dst src)) = some src := by
  refine ⟨hexEncode_eq dst src, ?_, ?_⟩
  · intro v hv
    have hv2 : v < 256 := h v hv
    exact ⟨hexDigit_mem _ (by omega), hexDigit_mem _ (by omega)⟩
  · rw [hexEncode_eq,
      show dst ++ ascii "0x" ++ hexBody src = dst ++ (ascii "0x" ++ hexBody src)
        from by simp [List.append_assoc],
      List.drop_left]
    have hd : hexDecode (48 :: 120 :: hexBody src) = hexDecodePairs (hexBody src) :=
      rfl
    rw [show (ascii "0x" ++ hexBody src : List Nat) = 48 :: 120 :: hexBody src
        from rfl, hd, hexDecodePairs_hexBody src h]

/-- C7 witness: the round-trip property at a concrete destination and source. -/
theorem claim_C7_witness :
    (∀ v ∈ ([0, 171, 255] : List Nat), v < 256)
  ∧ (hexEncode (ascii "k=") [0, 171, 255]
        = ascii "k=" ++ ascii "0x" ++ hexBody [0, 171, 255]
     ∧ (∀ v ∈ ([0, 171, 255] : List Nat),
          hexDigit (v / 16) ∈ hextable ∧ hexDigit (v % 16) ∈ hextable)
     ∧ hexDecode (List.drop (ascii "k=").length
          (hexEncode (ascii "k=") [0, 171, 255])) = some [0, 171, 255]) :=
  ⟨by decide, claim_C7 (ascii "k=") [0, 171, 255] (by decide)⟩

/-- C10: AddString performs no escaping or quoting: the key and value bytes
are appended verbatim after the optional separator.  Consequently a value
ending in an opening brace suppresses the separator of the following field,
and the rendering is ambiguous: one field a with value "1 b=2" renders the
same bytes as the two fields a=1 and b=2. -/
theorem claim_C10 (enc : TextEncoder) (k v : List Nat) :
    (AddString enc k v).bytes = enc.bytes ++ sepFor enc.bytes ++ k ++ [61] ++ v
  ∧ (∀ k2 v2, (AddString (AddString enc k (v ++ [123])) k2 v2).bytes
        = enc.bytes ++ sepFor enc.bytes ++ k ++ [61] ++ v ++ [123]
            ++ k2 ++ [61] ++ v2)
  ∧ (AddString (AddString (NewTextEncoder []) (ascii "a") (ascii "1"))
        (ascii "b") (ascii "2")).bytes
      = (AddString (NewTextEncoder []) (ascii "a") (ascii "1 b=2")).bytes := by
  refine ⟨addString_bytes enc k v, ?_, by decide⟩
  intro k2 v2
  have h : (AddString enc k (v ++ [123])).bytes
      = (enc.bytes ++ sepFor enc.bytes ++ k ++ [61] ++ v) ++ [123] := by
    rw [addString_bytes]
    simp [List.append_assoc]
  rw [addString_bytes, h, sepFor_snoc_brace]
  simp [List.append_assoc]

/-- C8: AddMarshaler appends the key (with the separator rule), an opening
brace, whatever the object's self-serialization appends to this same encoder,
and a closing brace; it returns exactly the object's error, and the closing
brace is appended (with no rollback of partial output) whether or not the
object reported an error, so the appended fragment keeps braces balanced. -/
theorem claim_C8 (enc : TextEncoder) (key : List Nat) (obj : LogMarshaler) :
    (AddMarshaler enc key obj).2 = (obj (afterOpen enc key)).2
  ∧ (AddMarshaler enc key obj).1.bytes = (obj (afterOpen enc key)).1.bytes ++ [125]
  ∧ (afterOpen enc key).bytes
      = enc.bytes ++ sepFor enc.bytes ++ key ++ [61] ++ [123]
  ∧ (∀ tail e2,
      obj (afterOpen enc key)
          = ({ afterOpen enc key with
                bytes := (afterOpen enc key).bytes ++ tail }, e2) →
      ((AddMarshaler enc key obj).1.bytes
          = enc.bytes ++ sepFor enc.bytes ++ key ++ [61] ++ [123] ++ tail ++ [125]
       ∧ (AddMarshaler enc key obj).2 = e2
       ∧ braceBal ([123] ++ tail ++ [125]) = braceBal tail)) := by
  refine ⟨rfl, rfl, ?_, ?_⟩
  · simp [afterOpen, addKey_bytes, List.append_assoc]
  · intro tail e2 hobj
    refine ⟨?_, ?_, ?_⟩
    · show ((obj (afterOpen enc key)).1.bytes ++ [125]) = _
      rw [hobj]
      simp [afterOpen, addKey_bytes, List.append_assoc]
    · show (obj (afterOpen enc key)).2 = e2
      rw [hobj]
    · simp [braceBal, braceDelta]

/-- C8 witness: a marshaler that appends the field a=1 inside the braces and
reports an error; the key req, the braces and the partial output are all
retained and the error is propagated. -/
theorem claim_C8_witness :
    demoMarshaler (afterOpen (NewTextEncoder []) (ascii "req"))
      = ({ afterOpen (NewTextEncoder []) (ascii "req") with
            bytes := (afterOpen (NewTextEncoder []) (ascii "req")).bytes
              ++ ascii "a=1" },
         some (GoErr.sinkErr 7))
  ∧ ((AddMarshaler (NewTextEncoder []) (ascii "req") demoMarshaler).1.bytes
        = (NewTextEncoder []).bytes ++ sepFor (NewTextEncoder []).bytes
            ++ ascii "req" ++ [61] ++ [123] ++ ascii "a=1" ++ [125]
     ∧ (AddMarshaler (NewTextEncoder []) (ascii "req") demoMarshaler).2
        = some (GoErr.sinkErr 7)
     ∧ braceBal ([123] ++ ascii "a=1" ++ [125]) = braceBal (ascii "a=1")) :=
  ⟨by decide,
   (claim_C8 (NewTextEncoder []) (ascii "req") demoMarshaler).2.2.2 (ascii "a=1")
     (some (GoErr.sinkErr 7)) (by decide)⟩

/-- C9: WriteEntry (on either encoder variant) never modifies the caller's
encoder: the buffer, time format and name-suppression setting are identical
before and after the call for every sink, and two consecutive calls with the
same arguments hand identical byte sequences to the sink (each non-nil call
performs exactly one write of the assembled line, which depends only on the
unchanged encoder state). -/
theorem claim_C9 (enc : TextEncoder) (aenc : AnsiEncoder) (s : Sink)
    (n m : List Nat) (l : Level) (t : Time) :
    (WriteEntry enc s n m l t).enc = enc
  ∧ (AnsiWriteEntry aenc s n m l t).enc = aenc
  ∧ (WriteEntry ((WriteEntry enc s n m l t).enc) s n m l t).writes
      = (WriteEntry enc s n m l t).writes
  ∧ (∀ w, (WriteEntry enc (Sink.writer w) n m l t).writes
      = [textAssemble enc n m l t])
  ∧ (∀ w, (AnsiWriteEntry aenc (Sink.writer w) n m l t).writes
      = [ansiAssemble aenc n m l t]) := by
  refine ⟨writeEntry_enc enc s n m l t, ansiWriteEntry_enc aenc s n m l t, ?_,
    fun w => writeEntry_writes enc w n m l t,
    fun w => ansiWriteEntry_writes aenc w n m l t⟩
  rw [writeEntry_enc]

/-- C4: WriteEntry (on either encoder variant) fails exactly when the sink is
nil (nil-sink error, no write performed), the sink reports an error (which is
propagated unchanged), or the write succeeds but reports fewer bytes than the
assembled line's length (incomplete-write error carrying the actual and
expected counts); the hypothesis is the sink contract that a writer never
reports more bytes than it was given. -/
theorem claim_C4 (enc : TextEncoder) (aenc : AnsiEncoder) (n m : List Nat)
    (l : Level) (t : Time) (w : WriteFn)
    (hw : ∀ bs, (w bs).1 ≤ bs.length) :
    WriteEntry enc Sink.nilSink n m l t = ⟨enc, [], some GoErr.nilSink⟩
  ∧ AnsiWriteEntry aenc Sink.nilSink n m l t = ⟨aenc, [], some GoErr.nilSink⟩
  ∧ ((WriteEntry enc (Sink.writer w) n m l t).err ≠ none ↔
      ((w (textAssemble enc n m l t)).2 ≠ none
        ∨ (w (textAssemble enc n m l t)).1 < (textAssemble enc n m l t).length))
  ∧ (∀ e, (w (textAssemble enc n m l t)).2 = some e →
      (WriteEntry enc (Sink.writer w) n m l t).err = some e)
  ∧ ((w (textAssemble enc n m l t)).2 = none →
      (w (textAssemble enc n m l t)).1 < (textAssemble enc n m l t).length →
      (WriteEntry enc (Sink.writer w) n m l t).err
        = some (GoErr.incompleteWrite (w (textAssemble enc n m l t)).1
            (textAssemble enc n m l t).length))
  ∧ ((AnsiWriteEntry aenc (Sink.writer w) n m l t).err ≠ none ↔
      ((w (ansiAssemble aenc n m l t)).2 ≠ none
        ∨ (w (ansiAssemble aenc n m l t)).1 < (ansiAssemble aenc n m l t).length))
  ∧ (∀ e, (w (ansiAssemble aenc n m l t)).2 = some e →
      (AnsiWriteEntry aenc (Sink.writer w) n m l t).err = some e)
  ∧ ((w (ansiAssemble aenc n m l t)).2 = none →
      (w (ansiAssemble aenc n m l t)).1 < (ansiAssemble aenc n m l t).length →
      (AnsiWriteEntry aenc (Sink.writer w) n m l t).err
        = some (GoErr.incompleteWrite (w (ansiAssemble aenc n m l t)).1
            (ansiAssemble aenc n m l t).length)) := by
  refine ⟨rfl, rfl, ?_, ?_, ?_, ?_, ?_, ?_⟩
  · rcases hA : w (textAssemble enc n m l t) with ⟨k, e⟩
    have hk2 : k ≤ (textAssemble enc n m l t).length := by
      have h0 := hw (textAssemble enc n m l t)
      rw [hA] at h0
      exact h0
    cases e with
    | none =>
      by_cases hk : k = (textAssemble enc n m l t).length
      · simp [WriteEntry, hA, hk]
      · have hlt : k < (textAssemble enc n m l t).length :=
          lt_of_le_of_ne hk2 hk
        simp [WriteEntry, hA, hk, hlt]
    | some e0 => simp [WriteEntry, hA]
  · intro e he
    rcases hA : w (textAssemble enc n m l t) with ⟨k, e1⟩
    rw [hA] at he
    cases e1 with
    | none => exact absurd he (by simp)
    | some e0 =>
      obtain rfl : e0 = e := by simpa using he
      simp [WriteEntry, hA]
  · intro he hlt
    rcases hA : w (textAssemble enc n m l t) with ⟨k, e1⟩
    rw [hA] at he hlt
    cases e1 with
    | some e0 => exact absurd he (by simp)
    | none =>
      have hk : k ≠ (textAssemble enc n m l t).length := Nat.ne_of_lt hlt
      simp [WriteEntry, hA, hk]
  · rcases hA : w (ansiAssemble aenc n m l t) with ⟨k, e⟩
    have hk2 : k ≤ (ansiAssemble aenc n m l t).length := by
      have h0 := hw (ansiAssemble aenc n m l t)
      rw [hA] at h0
      exact h0
    cases e with
    | none =>
      by_cases hk : k = (ansiAssemble aenc n m l t).length
      · simp [AnsiWriteEntry, hA, hk]
      · have hlt : k < (ansiAssemble aenc n m l t).length :=
          lt_of_le_of_ne hk2 hk
        simp [AnsiWriteEntry, hA, hk, hlt]
    | some e0 => simp [AnsiWriteEntry, hA]
  · intro e he
    rcases hA : w (ansiAssemble aenc n m l t) with ⟨k, e1⟩
    rw [hA] at he
    cases e1 with
    | none => exact absurd he (by simp)
    | some e0 =>
      obtain rfl : e0 = e := by simpa using he
      simp [AnsiWriteEntry, hA]
  · intro he hlt
    rcases hA : w (ansiAssemble aenc n m l t) with ⟨k, e1⟩
    rw [hA] at he hlt
    cases e1 with
    | some e0 => exact absurd he (by simp)
    | none =>
      have hk : k ≠ (ansiAssemble aenc n m l t).length := Nat.ne_of_lt hlt
      simp [AnsiWriteEntry, hA, hk]

/-- C4 witness: the sink contract hypothesis holds for the always-successful
demo sink, and the nil-sink case at concrete arguments returns the nil-sink
error with no write performed. -/
theorem claim_C4_witness :
    (∀ bs : List Nat, (demoSink bs).1 ≤ bs.length)
  ∧ WriteEntry (NewTextEncoder []) Sink.nilSink (ascii "svc") (ascii "started")
      Level.infoL t2021 = ⟨NewTextEncoder [], [], some GoErr.nilSink⟩ :=
  ⟨fun bs => Nat.le_refl bs.length,
   (claim_C4 (NewTextEncoder []) ansiScenario (ascii "svc") (ascii "started")
      Level.infoL t2021 demoSink (fun bs => Nat.le_refl bs.length)).1⟩

end Zap
